import Mathlib

/-!
Verification of the `triangulate_point_cloud` node
(src/triangulate_point_cloud/src/triangulate_pcl.cpp).

The repository's own code is the service plumbing in `reconstructMesh`,
`polygonMeshToShapeMsg` and `onTriangulatePcl`; the smoothing
(`pcl::MovingLeastSquares`) and hull (`pcl::ConvexHull`) algorithms live in
the external PCL library and are modelled from the specification where a
claim depends on them.  Coordinates (C++ doubles) are embedded as rationals;
`uint32_t` vertex indices as naturals.
-/

namespace TriangulatePcl

/-- A 3D point (`pcl::PointXYZ` / `geometry_msgs::Point`): three coordinates. -/
structure Point where
  x : ℚ
  y : ℚ
  z : ℚ
deriving DecidableEq, Repr

/-- A point cloud (`pcl::PointCloud`): an ordered sequence of points. -/
abbrev PointCloud := List Point

/-- `pcl::Vertices`: one polygon, given as vertex indices into a cloud. -/
abbrev Vertices := List Nat

/-- `shape_msgs::MeshTriangle`: three vertex indices.  The C++ default
constructor zero-initialises the message, so the default value is (0,0,0). -/
structure MeshTriangle where
  vertex_indices : Nat × Nat × Nat
deriving DecidableEq, Repr

/-- The value produced by `shape_msgs::MeshTriangle()`: all indices zero. -/
def MeshTriangle.mk0 : MeshTriangle := ⟨(0, 0, 0)⟩

/-- `shape_msgs::Mesh`: a vertex cloud plus a triangle sequence. -/
structure Mesh where
  vertices : PointCloud
  triangles : List MeshTriangle
deriving DecidableEq, Repr

/-- Squared Euclidean distance between two points. -/
def sqDist (p q : Point) : ℚ :=
  (p.x - q.x) ^ 2 + (p.y - q.y) ^ 2 + (p.z - q.z) ^ 2

/-- Modelled from the spec: the SpatialIndex neighborhood query of the
Smoother (the `pcl::search::KdTree` radius search is not part of this
repository's sources).  Returns the points of the cloud within radius `r`
of `p`, compared by squared distance. -/
def neighborhood (cloud : PointCloud) (r : ℚ) (p : Point) : PointCloud :=
  cloud.filter (fun q => sqDist p q ≤ r ^ 2)

/-- Centroid of a list of points (zero point for the empty list; it is only
used on neighborhoods of at least 3 points). -/
def centroid (l : PointCloud) : Point :=
  { x := (l.map Point.x).sum / l.length
  , y := (l.map Point.y).sum / l.length
  , z := (l.map Point.z).sum / l.length }

/-- Modelled from the spec: the Surface Smoother's per-cloud behavior
(`pcl::MovingLeastSquares` is not part of this repository's sources).
Following §4.1 of the spec: for each point, query the radius neighborhood;
if it has sufficient cardinality (minimum 3) fit a local surface over the
neighborhood and project the point onto it — modelled as the neighborhood
centroid, a degree-0 local fit — otherwise drop the point from the output. -/
def mlsSmooth (cloud : PointCloud) (r : ℚ) : PointCloud :=
  cloud.filterMap (fun p =>
    if 3 ≤ (neighborhood cloud r p).length
    then some (centroid (neighborhood cloud r p)) else none)

/-- The Smoother's error taxonomy (spec §7). -/
inductive SmoothError where
  | insufficientData
deriving DecidableEq, Repr

/-- Modelled from the spec: the external operation
`smooth(cloud, radius, usePolynomialFit)` of §6 — fails with
`InsufficientDataError` only if the input cloud is empty, otherwise returns
the smoothed (possibly smaller or empty) cloud. -/
def smooth (cloud : PointCloud) (r : ℚ) : Except SmoothError PointCloud :=
  if cloud.isEmpty then Except.error SmoothError.insufficientData
  else Except.ok (mlsSmooth cloud r)

/-- Signed orientation determinant of four points: the triple product
det(b - a, c - a, d - a). -/
def orient (a b c d : Point) : ℚ :=
  (b.x - a.x) * ((c.y - a.y) * (d.z - a.z) - (c.z - a.z) * (d.y - a.y))
  - (b.y - a.y) * ((c.x - a.x) * (d.z - a.z) - (c.z - a.z) * (d.x - a.x))
  + (b.z - a.z) * ((c.x - a.x) * (d.y - a.y) - (c.y - a.y) * (d.x - a.x))

/-- Whether the whole cloud lies (weakly) on one side of the plane through
`a`, `b`, `c`: the support-plane test of the brute-force hull. -/
def onOneSide (a b c : Point) (cloud : PointCloud) : Bool :=
  cloud.all (fun d => decide (0 ≤ orient a b c d))
  || cloud.all (fun d => decide (orient a b c d ≤ 0))

/-- All index triples `(i, j, k)` with `i < j < k < n`, in lexicographic
order. -/
def triples (n : Nat) : List (Nat × Nat × Nat) :=
  (List.range n).flatMap (fun i =>
    (List.range n).flatMap (fun j =>
      (List.range n).filterMap (fun k =>
        if i < j ∧ j < k then some (i, j, k) else none)))

/-- Point of a cloud at index `i` (zero point out of range; indices fed to
it come from `List.range cloud.length`). -/
def at? (cloud : PointCloud) (i : Nat) : Point :=
  cloud.getD i ⟨0, 0, 0⟩

/-- Modelled from the spec: the boundary polygons of the 3D convex hull
(`pcl::ConvexHull` is not part of this repository's sources).  Every index
triple whose support plane has the whole cloud weakly on one side is a hull
face; each face is emitted as one polygon of 3 vertex indices. -/
def hullPolygons (cloud : PointCloud) : List Vertices :=
  (triples cloud.length).filterMap (fun t =>
    if onOneSide (at? cloud t.1) (at? cloud t.2.1) (at? cloud t.2.2) cloud
    then some [t.1, t.2.1, t.2.2] else none)

/-- Modelled from the spec: `ch.reconstruct(output_cloud, triangles)` —
`reconstruct(cloud)` of §4.2/§6.  If the cloud has fewer than 4 points (no
non-degenerate 3D hull) it returns an empty mesh, empty vertex and triangle
sequences, rather than failing; otherwise it returns the cloud together with
the hull boundary polygons, whose indices reference that output cloud. -/
def convexHullReconstruct (cloud : PointCloud) : PointCloud × List Vertices :=
  if cloud.length < 4 then ([], [])
  else (cloud, hullPolygons cloud)

/-- Embedding of `reconstructMesh` (triangulate_pcl.cpp lines 54-80).
`mls.process` writes the smoothing result into `mls_normals` (line 74),
while `mls_points`, the cloud handed to `ConvexHull::setInputCloud`
(line 78), is a freshly constructed cloud that no statement ever fills:
the hull is computed over an empty cloud and the MLS output is unused. -/
def reconstructMesh (cloud : PointCloud) : PointCloud × List Vertices :=
  let mls_points : PointCloud := []
  let mls_normals : PointCloud := mlsSmooth cloud (3 / 100)
  let _ := mls_normals
  convexHullReconstruct mls_points

/-- One step of the `BOOST_FOREACH` loop body of `polygonMeshToShapeMsg`
(lines 100-113), folded over the polygon list.  Returns the emitted triangle
sequence together with the number of dropped-polygon warnings
(`ROS_WARN`, line 104).  A polygon with fewer than 3 indices is skipped with
a warning; otherwise a local `triangle` holding the polygon's first three
indices is built (lines 108-110) but the value pushed onto the mesh is a
fresh default-constructed `MeshTriangle()` (line 112), so the local is dead. -/
def emitTriangles : List Vertices → List MeshTriangle × Nat
  | [] => ([], 0)
  | polygon :: rest =>
    if polygon.length < 3 then
      ((emitTriangles rest).1, (emitTriangles rest).2 + 1)
    else
      let triangle : MeshTriangle :=
        ⟨(polygon.getD 0 0, polygon.getD 1 0, polygon.getD 2 0)⟩
      let _ := triangle
      (MeshTriangle.mk0 :: (emitTriangles rest).1, (emitTriangles rest).2)

/-- Embedding of `polygonMeshToShapeMsg` (lines 90-114): copies the vertex
cloud into the mesh and runs the triangle-emission loop; also exposes the
warning count of the loop. -/
def polygonMeshToShapeMsg (points : PointCloud) (triangles : List Vertices) :
    Mesh × Nat :=
  ({ vertices := points, triangles := (emitTriangles triangles).1 },
   (emitTriangles triangles).2)

/-- Embedding of the service handler `onTriangulatePcl` (lines 116-138):
converts the request cloud, runs `reconstructMesh`, converts the result to
the mesh message and returns `true` unconditionally. -/
def onTriangulatePcl (req : PointCloud) : Mesh × Bool :=
  ((polygonMeshToShapeMsg (reconstructMesh req).1 (reconstructMesh req).2).1,
   true)

/-! ### Helper lemmas -/

/-- Every triangle the emission loop produces is the default-constructed
triangle (line 112 pushes `MeshTriangle()`, not the populated local). -/
theorem emitTriangles_mem (ts : List Vertices) :
    ∀ t ∈ (emitTriangles ts).1, t = MeshTriangle.mk0 := by
  induction ts with
  | nil => intro t ht; simp [emitTriangles] at ht
  | cons polygon rest ih =>
    intro t ht
    by_cases h : polygon.length < 3
    · exact ih t (by simpa [emitTriangles, h] using ht)
    · rcases (by simpa [emitTriangles, h] using ht : t = MeshTriangle.mk0 ∨
        t ∈ (emitTriangles rest).1) with h1 | h1
      · exact h1
      · exact ih t h1

/-- The emission loop emits one triangle per polygon with at least 3
indices and one warning per shorter polygon. -/
theorem emitTriangles_counts (ts : List Vertices) :
    (emitTriangles ts).1.length = ts.countP (fun p => 3 ≤ p.length)
    ∧ (emitTriangles ts).2 = ts.countP (fun p => p.length < 3) := by
  induction ts with
  | nil => simp [emitTriangles]
  | cons polygon rest ih =>
    by_cases h : polygon.length < 3
    · have h3 : ¬ 3 ≤ polygon.length := by omega
      simp [emitTriangles, h, h3, List.countP_cons, ih.1, ih.2]
    · have h3 : 3 ≤ polygon.length := by omega
      simp [emitTriangles, h, h3, List.countP_cons, ih.1, ih.2]

theorem mem_neighborhood {cloud : PointCloud} {r : ℚ} {p u : Point} :
    u ∈ neighborhood cloud r p ↔ u ∈ cloud ∧ sqDist p u ≤ r ^ 2 := by
  simp [neighborhood, List.mem_filter]

/-- Sum of a shifted projection over a point list. -/
theorem sum_map_sub (f : Point → ℚ) (c : ℚ) (l : List Point) :
    (l.map (fun u => f u - c)).sum = (l.map f).sum - l.length * c := by
  induction l with
  | nil => simp
  | cons a l ih =>
    simp only [List.map_cons, List.sum_cons, List.length_cons, ih]
    push_cast
    ring

/-- Triangle inequality for list sums, against a uniform bound. -/
theorem abs_sum_le (l : List ℚ) (c : ℚ) (h : ∀ a ∈ l, |a| ≤ |c|) :
    |l.sum| ≤ l.length * |c| := by
  induction l with
  | nil => simp
  | cons a l ih =>
    have h1 : |a| ≤ |c| := h a (List.mem_cons_self a l)
    have h2 : |l.sum| ≤ l.length * |c| :=
      ih (fun x hx => h x (List.mem_cons_of_mem a hx))
    calc |(a :: l).sum| = |a + l.sum| := by simp
      _ ≤ |a| + |l.sum| := abs_add _ _
      _ ≤ |c| + l.length * |c| := by linarith
      _ = (a :: l).length * |c| := by simp; ring

/-- A quotient whose numerator is bounded by `n * |c|` has square at most
`c ^ 2`. -/
theorem div_sq_le (S : ℚ) (n : ℕ) (c : ℚ) (hn : 0 < n)
    (h : |S| ≤ n * |c|) : (S / n) ^ 2 ≤ c ^ 2 := by
  have hn' : (0 : ℚ) < n := by exact_mod_cast hn
  rw [div_pow, div_le_iff₀ (by positivity)]
  have hS : S ^ 2 ≤ (n * |c|) ^ 2 := by
    nlinarith [sq_abs S, abs_nonneg S, abs_nonneg c, hn'.le]
  calc S ^ 2 ≤ (n * |c|) ^ 2 := hS
    _ = c ^ 2 * (n : ℚ) ^ 2 := by rw [mul_pow, sq_abs]; ring

/-- Each coordinate of the neighborhood centroid stays within `|c|` of the
query point's coordinate when every neighbor does. -/
theorem centroid_coord (l : List Point) (f : Point → ℚ) (c p0 : ℚ)
    (hn : 0 < l.length) (h : ∀ u ∈ l, |f u - p0| ≤ |c|) :
    ((l.map f).sum / l.length - p0) ^ 2 ≤ c ^ 2 := by
  have hS : |(l.map (fun u => f u - p0)).sum|
      ≤ (l.map (fun u => f u - p0)).length * |c| := by
    refine abs_sum_le _ c ?_
    intro a ha
    obtain ⟨u, hu, rfl⟩ := List.mem_map.1 ha
    exact h u hu
  rw [List.length_map, sum_map_sub] at hS
  have key := div_sq_le ((l.map f).sum - l.length * p0) l.length c hn hS
  have hl0 : (l.length : ℚ) ≠ 0 := by
    exact_mod_cast Nat.pos_iff_ne_zero.1 hn
  have heq : ((l.map f).sum - l.length * p0) / l.length
      = (l.map f).sum / l.length - p0 := by
    field_simp
  rwa [heq] at key

/-- The centroid of a nonempty set of points within squared distance `r ^ 2`
of `p` lies within squared distance `3 * r ^ 2` of `p`. -/
theorem centroid_sqDist_le (l : List Point) (p : Point) (r : ℚ)
    (hne : l ≠ []) (h : ∀ u ∈ l, sqDist p u ≤ r ^ 2) :
    sqDist (centroid l) p ≤ 3 * r ^ 2 := by
  have hn : 0 < l.length := List.length_pos.2 hne
  have habs : ∀ (f : Point → ℚ), (∀ u ∈ l, (f u - f p) ^ 2 ≤ r ^ 2) →
      ∀ u ∈ l, |f u - f p| ≤ |r| := by
    intro f hf u hu
    have h1 := hf u hu
    nlinarith [sq_abs (f u - f p), sq_abs r, abs_nonneg (f u - f p),
      abs_nonneg r]
  have hx := centroid_coord l Point.x r p.x hn
    (habs Point.x (fun u hu => by
      have := h u hu; rw [sqDist] at this
      nlinarith [sq_nonneg (p.y - u.y), sq_nonneg (p.z - u.z)]))
  have hy := centroid_coord l Point.y r p.y hn
    (habs Point.y (fun u hu => by
      have := h u hu; rw [sqDist] at this
      nlinarith [sq_nonneg (p.x - u.x), sq_nonneg (p.z - u.z)]))
  have hz := centroid_coord l Point.z r p.z hn
    (habs Point.z (fun u hu => by
      have := h u hu; rw [sqDist] at this
      nlinarith [sq_nonneg (p.x - u.x), sq_nonneg (p.y - u.y)]))
  rw [sqDist, centroid]
  dsimp only
  linarith

/-! ### Concrete input clouds used by witnesses and counterexamples -/

/-- Four clusters of three coincident points each, at the corners of a unit
tetrahedron: every point has a 3-point neighborhood within radius 0.03, so
the Smoother keeps all twelve points. -/
def sampleClusters : PointCloud :=
  [⟨0,0,0⟩, ⟨0,0,0⟩, ⟨0,0,0⟩, ⟨1,0,0⟩, ⟨1,0,0⟩, ⟨1,0,0⟩,
   ⟨0,1,0⟩, ⟨0,1,0⟩, ⟨0,1,0⟩, ⟨0,0,1⟩, ⟨0,0,1⟩, ⟨0,0,1⟩]

/-- Three coincident points at the origin. -/
def trioCloud : PointCloud := [⟨0,0,0⟩, ⟨0,0,0⟩, ⟨0,0,0⟩]

/-- Four coincident points at the origin. -/
def quadCloud : PointCloud := [⟨0,0,0⟩, ⟨0,0,0⟩, ⟨0,0,0⟩, ⟨0,0,0⟩]

/-! ### Claims -/

/-- C1: the claim says the Reconstructor computes the hull over the
Smoother's output, but `reconstructMesh` hands `ConvexHull` the
never-populated `mls_points` cloud: the produced mesh is `([], [])` for
every input, while the hull of the actual smoothed cloud of
`sampleClusters` is not empty. -/
theorem reconstructMesh_ignores_smoothed_cloud :
    (∀ cloud : PointCloud, reconstructMesh cloud = ([], []))
    ∧ convexHullReconstruct (mlsSmooth sampleClusters (3 / 100)) ≠ ([], []) := by
  constructor
  · intro cloud; rfl
  · have hlen : (mlsSmooth sampleClusters (3 / 100)).length = 12 := by
      norm_num [mlsSmooth, neighborhood, sqDist, sampleClusters,
        List.filterMap, List.filter]
    intro heq
    rw [convexHullReconstruct] at heq
    rw [if_neg (by omega)] at heq
    have : (mlsSmooth sampleClusters (3 / 100)) = [] :=
      congrArg Prod.fst heq
    rw [this] at hlen
    simp at hlen

/-- C2: every triangle appended to the response mesh is a
default-constructed `MeshTriangle`, carrying vertex indices (0, 0, 0)
regardless of the surviving polygon's actual indices. -/
theorem emitted_triangles_are_default (pts : PointCloud) (ts : List Vertices)
    (t : MeshTriangle)
    (ht : t ∈ ((polygonMeshToShapeMsg pts ts).1).triangles) :
    t.vertex_indices = (0, 0, 0) := by
  have := emitTriangles_mem ts t (by simpa [polygonMeshToShapeMsg] using ht)
  rw [this]; rfl

/-- Witness for C2 at the polygon `[1, 2, 3]`. -/
theorem emitted_triangles_are_default_witness :
    MeshTriangle.mk0 ∈ ((polygonMeshToShapeMsg [] [[1, 2, 3]]).1).triangles
    ∧ MeshTriangle.mk0.vertex_indices = (0, 0, 0) :=
  ⟨by decide,
   emitted_triangles_are_default [] [[1, 2, 3]] MeshTriangle.mk0 (by decide)⟩

/-- C4: the service handler reports success (`true`) on every request, and
`reconstruct` signals no error on degenerate input: for clouds of fewer
than 4 points it returns the empty mesh. -/
theorem handler_succeeds_and_reconstruct_total (req cloud : PointCloud) :
    (onTriangulatePcl req).2 = true
    ∧ (cloud.length < 4 → convexHullReconstruct cloud = ([], [])) := by
  refine ⟨rfl, fun h => ?_⟩
  rw [convexHullReconstruct, if_pos h]

/-- Witness for C4 at the empty request and the empty cloud. -/
theorem handler_succeeds_and_reconstruct_total_witness :
    (onTriangulatePcl []).2 = true
    ∧ convexHullReconstruct [] = ([], []) :=
  ⟨(handler_succeeds_and_reconstruct_total [] []).1,
   (handler_succeeds_and_reconstruct_total [] []).2 (by decide)⟩

/-- C5: for every cloud of fewer than 4 points, reconstruction returns a
mesh with an empty triangle sequence (and an empty hull polygon list), as a
defined outcome of the total function `convexHullReconstruct`. -/
theorem small_cloud_gives_empty_triangles (cloud : PointCloud)
    (h : cloud.length < 4) :
    ((polygonMeshToShapeMsg (convexHullReconstruct cloud).1
        (convexHullReconstruct cloud).2).1).triangles = []
    ∧ (convexHullReconstruct cloud).2 = [] := by
  rw [convexHullReconstruct, if_pos h]
  exact ⟨rfl, rfl⟩

/-- Witness for C5 at a one-point cloud. -/
theorem small_cloud_gives_empty_triangles_witness :
    ((polygonMeshToShapeMsg (convexHullReconstruct [⟨0,0,0⟩]).1
        (convexHullReconstruct [⟨0,0,0⟩]).2).1).triangles = []
    ∧ (convexHullReconstruct [⟨0,0,0⟩]).2 = [] :=
  small_cloud_gives_empty_triangles [⟨0,0,0⟩] (by decide)

/-- C6: polygons with fewer than 3 vertex indices are dropped, each with one
recorded warning, and contribute no triangle; exactly the polygons with at
least 3 indices each contribute one triangle; the conversion is a total
function, so dropping is diagnostic, never a failure. -/
theorem short_polygons_dropped_with_warning (pts : PointCloud)
    (ts : List Vertices) :
    ((polygonMeshToShapeMsg pts ts).1).triangles.length
      = ts.countP (fun p => 3 ≤ p.length)
    ∧ (polygonMeshToShapeMsg pts ts).2
      = ts.countP (fun p => p.length < 3) := by
  simpa [polygonMeshToShapeMsg] using emitTriangles_counts ts

/-- C7 evaluation: on the surviving polygon `[1, 2, 3]` the code emits the
default triangle, not a triangle carrying the polygon's first three
indices. -/
theorem first_three_indices_not_emitted :
    ((polygonMeshToShapeMsg [] [[1, 2, 3]]).1).triangles = [MeshTriangle.mk0]
    ∧ MeshTriangle.mk0.vertex_indices ≠ (1, 2, 3) := by
  decide

/-- C3: `smooth` fails with `InsufficientDataError` exactly on the empty
input cloud; on every nonempty cloud it returns the (possibly smaller or
empty) smoothed cloud without failing. -/
theorem smooth_error_iff_empty (cloud : PointCloud) (r : ℚ) :
    (smooth cloud r = Except.error SmoothError.insufficientData ↔ cloud = [])
    ∧ (cloud ≠ [] → smooth cloud r = Except.ok (mlsSmooth cloud r)) := by
  rcases cloud with _ | ⟨p, rest⟩
  · simp [smooth]
  · simp [smooth]

/-- Witness for C3 at a nonempty cloud. -/
theorem smooth_error_iff_empty_witness :
    smooth trioCloud 1 = Except.ok (mlsSmooth trioCloud 1) :=
  (smooth_error_iff_empty trioCloud 1).2 (by simp [trioCloud])

/-- C8: every triangle of a reconstructed mesh references vertex indices
strictly below the mesh's vertex count. -/
theorem triangle_indices_within_vertex_count (cloud : PointCloud)
    (t : MeshTriangle)
    (ht : t ∈ ((polygonMeshToShapeMsg (convexHullReconstruct cloud).1
        (convexHullReconstruct cloud).2).1).triangles) :
    t.vertex_indices.1
        < ((polygonMeshToShapeMsg (convexHullReconstruct cloud).1
            (convexHullReconstruct cloud).2).1).vertices.length
    ∧ t.vertex_indices.2.1
        < ((polygonMeshToShapeMsg (convexHullReconstruct cloud).1
            (convexHullReconstruct cloud).2).1).vertices.length
    ∧ t.vertex_indices.2.2
        < ((polygonMeshToShapeMsg (convexHullReconstruct cloud).1
            (convexHullReconstruct cloud).2).1).vertices.length := by
  by_cases h : cloud.length < 4
  · rw [convexHullReconstruct, if_pos h] at ht
    simp [polygonMeshToShapeMsg, emitTriangles] at ht
  · have hmem := emitTriangles_mem _ t (by simpa [polygonMeshToShapeMsg]
      using ht)
    rw [convexHullReconstruct, if_neg h]
    rw [hmem]
    have hpos : 0 < cloud.length := by omega
    simp only [polygonMeshToShapeMsg, MeshTriangle.mk0]
    exact ⟨hpos, hpos, hpos⟩

/-- Witness for C8 at a four-point cloud whose hull has four faces. -/
theorem triangle_indices_within_vertex_count_witness :
    MeshTriangle.mk0 ∈ ((polygonMeshToShapeMsg
        (convexHullReconstruct quadCloud).1
        (convexHullReconstruct quadCloud).2).1).triangles
    ∧ (MeshTriangle.mk0.vertex_indices.1
        < ((polygonMeshToShapeMsg (convexHullReconstruct quadCloud).1
            (convexHullReconstruct quadCloud).2).1).vertices.length
      ∧ MeshTriangle.mk0.vertex_indices.2.1
        < ((polygonMeshToShapeMsg (convexHullReconstruct quadCloud).1
            (convexHullReconstruct quadCloud).2).1).vertices.length
      ∧ MeshTriangle.mk0.vertex_indices.2.2
        < ((polygonMeshToShapeMsg (convexHullReconstruct quadCloud).1
            (convexHullReconstruct quadCloud).2).1).vertices.length) := by
  have ht : triples 4 = [(0,1,2), (0,1,3), (0,2,3), (1,2,3)] := by decide
  have h1 : hullPolygons quadCloud = [[0,1,2], [0,1,3], [0,2,3], [1,2,3]] := by
    norm_num [hullPolygons, quadCloud, ht, onOneSide, orient, at?,
      List.filterMap, List.all]
  have h2 : convexHullReconstruct quadCloud
      = (quadCloud, [[0,1,2], [0,1,3], [0,2,3], [1,2,3]]) := by
    rw [convexHullReconstruct, if_neg (by decide), h1]
  have hmem : MeshTriangle.mk0 ∈ ((polygonMeshToShapeMsg
      (convexHullReconstruct quadCloud).1
      (convexHullReconstruct quadCloud).2).1).triangles := by
    rw [h2]
    simp [polygonMeshToShapeMsg, emitTriangles]
  exact ⟨hmem,
    triangle_indices_within_vertex_count quadCloud MeshTriangle.mk0 hmem⟩

/-- C9: the smoothed cloud never grows, and every smoothed point stays
within squared distance `3 * r ^ 2` of some input point — a bound
proportional to the configured search radius. -/
theorem smooth_shrinks_and_stays_local (cloud : PointCloud) (r : ℚ) :
    (mlsSmooth cloud r).length ≤ cloud.length
    ∧ ∀ q ∈ mlsSmooth cloud r, ∃ p ∈ cloud, sqDist q p ≤ 3 * r ^ 2 := by
  constructor
  · exact List.length_filterMap_le _ _
  · intro q hq
    rw [mlsSmooth] at hq
    obtain ⟨p, hp, hfp⟩ := List.mem_filterMap.1 hq
    by_cases hc : 3 ≤ (neighborhood cloud r p).length
    · rw [if_pos hc] at hfp
      obtain rfl := Option.some.inj hfp
      refine ⟨p, hp, ?_⟩
      refine centroid_sqDist_le _ p r ?_ ?_
      · intro hnil
        rw [hnil] at hc
        simp at hc
      · intro u hu
        exact (mem_neighborhood.1 hu).2
    · rw [if_neg hc] at hfp
      exact absurd hfp (by simp)

/-- Witness for C9 at three coincident points and radius 1. -/
theorem smooth_shrinks_and_stays_local_witness :
    (mlsSmooth trioCloud 1).length ≤ trioCloud.length
    ∧ ∃ p ∈ trioCloud,
        sqDist (centroid (neighborhood trioCloud 1 ⟨0,0,0⟩)) p
          ≤ 3 * 1 ^ 2 := by
  have hmem : centroid (neighborhood trioCloud 1 ⟨0,0,0⟩)
      ∈ mlsSmooth trioCloud 1 := by
    norm_num [mlsSmooth, neighborhood, sqDist, trioCloud,
      List.filterMap, List.filter]
  exact ⟨(smooth_shrinks_and_stays_local trioCloud 1).1,
    (smooth_shrinks_and_stays_local trioCloud 1).2 _ hmem⟩

/-- C10: reconstruction is deterministic: two invocations on identical
smoothed clouds produce identical vertex sequences and identical triangle
sequences. -/
theorem reconstruct_deterministic (c1 c2 : PointCloud) (h : c1 = c2) :
    ((polygonMeshToShapeMsg (convexHullReconstruct c1).1
        (convexHullReconstruct c1).2).1).vertices
      = ((polygonMeshToShapeMsg (convexHullReconstruct c2).1
          (convexHullReconstruct c2).2).1).vertices
    ∧ ((polygonMeshToShapeMsg (convexHullReconstruct c1).1
        (convexHullReconstruct c1).2).1).triangles
      = ((polygonMeshToShapeMsg (convexHullReconstruct c2).1
          (convexHullReconstruct c2).2).1).triangles := by
  subst h; exact ⟨rfl, rfl⟩

/-- Witness for C10 at the empty cloud. -/
theorem reconstruct_deterministic_witness :
    ((polygonMeshToShapeMsg (convexHullReconstruct []).1
        (convexHullReconstruct []).2).1).vertices
      = ((polygonMeshToShapeMsg (convexHullReconstruct []).1
          (convexHullReconstruct []).2).1).vertices
    ∧ ((polygonMeshToShapeMsg (convexHullReconstruct []).1
        (convexHullReconstruct []).2).1).triangles
      = ((polygonMeshToShapeMsg (convexHullReconstruct []).1
          (convexHullReconstruct []).2).1).triangles :=
  reconstruct_deterministic [] [] rfl

end TriangulatePcl
